import Mathlib

/-!
# Verification of the `das_labels` label-rendering pipeline

A shallow embedding of `src/main.py` and `src/convert_logo.py`: the program
reads participant rows (name, category, t-shirt size), sorts them by size,
renders one fixed-size label image per row (background template copy, logo
paste, three text draws), and dispatches each label to a preview collection
or to a label printer.

Pixels are exact naturals (no floating point enters any verified
property); images are dimension pairs together with total pixel maps;
Python floor division `//` is embedded as integer division with a positive
literal divisor, where Lean's `Int` division (Euclidean) coincides with
flooring.  External library primitives (PIL drawing, measuring, resizing
and compositing; pandas sorting) are modelled from their documented
behaviour and marked as such in their doc comments; all layout arithmetic
is translated directly from the source.
-/

namespace DasLabels

/-- An RGB colour, channels in `0–255`. -/
structure RGB where
  r : Nat
  g : Nat
  b : Nat
deriving DecidableEq

/-- Source constant `BACKGROUND_COLOUR = "white"` from `src/main.py`. -/
def BACKGROUND_COLOUR : RGB := ⟨255, 255, 255⟩

/-- Source constant `PRINT_COLOUR = "black"` from `src/main.py`. -/
def PRINT_COLOUR : RGB := ⟨0, 0, 0⟩

/-- An RGB raster image: dimensions plus a total pixel map. -/
structure Img where
  width : Nat
  height : Nat
  px : Nat → Nat → RGB

/-- An RGBA raster image (source `LOGO_COLOUR_MODE = "RGBA"`): RGB channels
plus an alpha channel in `0–255`. -/
structure ImgA where
  width : Nat
  height : Nat
  px : Nat → Nat → RGB
  alpha : Nat → Nat → Nat

/-- Modelled from the spec: a loaded TrueType font handle (the font files
are external assets).  It carries per-character advance widths, a glyph
coverage predicate in coordinates relative to the draw origin, the line
height reported by `textbbox` for non-empty text, and the descent from
`getmetrics()`. -/
structure Font where
  advance : Char → Nat
  glyph : Char → Int → Int → Bool
  lineHeight : Nat
  descent : Nat

/-- A participant row: the `Name`, `Category` and `T-shirt size` cells. -/
structure Row where
  name : String
  category : String
  size : String
deriving DecidableEq

/-- Source constant `LABEL_SIZE = (991, 413)` — 38x90mm die-cut label,
rotated to landscape. -/
def LABEL_SIZE : Nat × Nat := (991, 413)

/-- Source constant `PADDING = 5` — padding from edges. -/
def PADDING : Nat := 5

/-- Source constant `NAME_VERTICAL_POSITION = 200`. -/
def NAME_VERTICAL_POSITION : Nat := 200

/-- Source constant `BOTTOM_PADDING = PADDING + DESCENT`, where `DESCENT`
is the descent from `SMALL_FONT.getmetrics()`. -/
def BOTTOM_PADDING (smallFont : Font) : Nat := PADDING + smallFont.descent

/-- Source function `get_textsize` from `src/main.py`:
`bbox = draw.textbbox((0,0), text, font)` and return
`(bbox[2]-bbox[0], bbox[3]-bbox[1])`.  Modelled from the spec for the PIL
measurement itself: the width is the summed glyph advances, the height is
the font's line height, and the empty string measures to `(0, 0)`. -/
def get_textsize (font : Font) (text : String) : Nat × Nat :=
  ((text.data.map font.advance).sum,
    if text.data = [] then 0 else font.lineHeight)

/-- Modelled from the spec: whether pixel `(x, y)` is covered by a glyph of
`text` drawn with origin `(ox, oy)`, each character advancing the origin by
its advance width (PIL `draw.text` layout). -/
def textCover (font : Font) : List Char → Int → Int → Int → Int → Bool
  | [], _, _, _, _ => false
  | c :: cs, ox, oy, x, y =>
      font.glyph c (x - ox) (y - oy) || textCover font cs (ox + font.advance c) oy x y

/-- Modelled from the spec: PIL `draw.text(pos, text, fill, font)` — every
pixel covered by a glyph of `text` is set to `fill`, all other pixels are
left unchanged. -/
def drawText (img : Img) (pos : Int × Int) (text : String) (fill : RGB)
    (font : Font) : Img :=
  { img with
    px := fun x y =>
      if textCover font text.data pos.1 pos.2 (x : Int) (y : Int) then fill
      else img.px x y }

/-- The x position computed by `add_name`:
`name_x = (LABEL_SIZE[0] - width) // 2`.  Python `//` is floor division;
Lean's `Int` division is Euclidean division, which agrees with flooring for
the positive divisor `2`. -/
def nameX (width : Nat) : Int := ((LABEL_SIZE.1 : Int) - (width : Int)) / 2

/-- Source function `add_name` from `src/main.py`: measure the name in the
large font and draw it at `(name_x, NAME_VERTICAL_POSITION)` in the print
colour. -/
def add_name (largeFont : Font) (img : Img) (name : String) : Img :=
  drawText img (nameX (get_textsize largeFont name).1, (NAME_VERTICAL_POSITION : Int))
    name PRINT_COLOUR largeFont

/-- The position passed to `draw.text` by `add_participant_category`:
`(PADDING, LABEL_SIZE[1] - height - BOTTOM_PADDING)`. -/
def categoryPos (smallFont : Font) (text : String) : Int × Int :=
  ((PADDING : Int),
    (LABEL_SIZE.2 : Int) - ((get_textsize smallFont text).2 : Int)
      - (BOTTOM_PADDING smallFont : Int))

/-- Source function `add_participant_category` from `src/main.py`. -/
def add_participant_category (smallFont : Font) (img : Img) (text : String) : Img :=
  drawText img (categoryPos smallFont text) text PRINT_COLOUR smallFont

/-- The position passed to `draw.text` by `add_t_shirt_size`:
`(LABEL_SIZE[0] - width - PADDING, LABEL_SIZE[1] - height - BOTTOM_PADDING)`. -/
def sizePos (smallFont : Font) (text : String) : Int × Int :=
  ((LABEL_SIZE.1 : Int) - ((get_textsize smallFont text).1 : Int) - (PADDING : Int),
    (LABEL_SIZE.2 : Int) - ((get_textsize smallFont text).2 : Int)
      - (BOTTOM_PADDING smallFont : Int))

/-- Source function `add_t_shirt_size` from `src/main.py`. -/
def add_t_shirt_size (smallFont : Font) (img : Img) (text : String) : Img :=
  drawText img (sizePos smallFont text) text PRINT_COLOUR smallFont

/-- Source constant `PREVIEW_COLUMNS = 10`. -/
def PREVIEW_COLUMNS : Nat := 10

/-- The column count `cols = min(PREVIEW_COLUMNS, num_images)` from
`preview_grid`. -/
def previewCols (numImages : Nat) : Nat := min PREVIEW_COLUMNS numImages

/-- The row count `rows = (num_images + cols - 1) // cols` from
`preview_grid`. -/
def previewRows (numImages : Nat) : Nat :=
  (numImages + previewCols numImages - 1) / previewCols numImages

/-- Modelled from the spec: PIL's exact fixed-point channel scaling
`MULDIV255(a, b) = ((t >> 8) + t) >> 8` with `t = a*b + 128`, used when
compositing with a mask. -/
def muldiv255 (a b : Nat) : Nat :=
  ((a * b + 128) / 256 + (a * b + 128)) / 256

/-- Modelled from the spec: one channel of compositing foreground over
background with mask value `a` (PIL blending). -/
def blendChan (bg fg a : Nat) : Nat :=
  muldiv255 bg (255 - a) + muldiv255 fg a

/-- Compositing one RGB pixel over another with mask value `a`. -/
def blendRGB (bg fg : RGB) (a : Nat) : RGB :=
  ⟨blendChan bg.r fg.r a, blendChan bg.g fg.g a, blendChan bg.b fg.b a⟩

/-- Modelled from the spec: `img.paste(logo, (ox, oy), logo)` — composite
the RGBA `logo` at offset `(ox, oy)`, using the logo's own alpha channel as
the paste mask, so transparent logo pixels do not overwrite the
background. -/
def paste (img : Img) (logo : ImgA) (ox oy : Nat) : Img :=
  { img with
    px := fun x y =>
      if ox ≤ x ∧ x < ox + logo.width ∧ oy ≤ y ∧ y < oy + logo.height then
        blendRGB (img.px x y) (logo.px (x - ox) (y - oy)) (logo.alpha (x - ox) (y - oy))
      else img.px x y }

/-- The call `blank_label_template.copy()` — a fresh image with the same
dimensions and pixel contents. -/
def Img.copy (img : Img) : Img := ⟨img.width, img.height, img.px⟩

/-- Source value `blank_label_template = Image.new(LABEL_COLOUR_MODE,
LABEL_SIZE, BACKGROUND_COLOUR)` from `main`. -/
def blank_label_template : Img :=
  ⟨LABEL_SIZE.1, LABEL_SIZE.2, fun _ _ => BACKGROUND_COLOUR⟩

/-- Source function `make_label_with_logo` from `src/main.py`: copy the
shared template and paste the logo at `(PADDING, PADDING)` with the logo as
its own mask.  All subsequent draws target the copy. -/
def make_label_with_logo (template : Img) (logo : ImgA) : Img :=
  paste template.copy logo PADDING PADDING

/-- The body of `main`'s per-row loop, up to dispatch: copy-and-paste, then
the three text draws. -/
def renderLabel (template : Img) (logo : ImgA) (largeFont smallFont : Font)
    (row : Row) : Img :=
  add_t_shirt_size smallFont
    (add_participant_category smallFont
      (add_name largeFont (make_label_with_logo template logo) row.name)
      row.category)
    row.size

/-- The preview-mode loop of `main` over the sorted participant rows,
carrying the shared template and the accumulated preview images as explicit
state. -/
def processRows (logo : ImgA) (largeFont smallFont : Font) :
    List Row → Img × List Img → Img × List Img
  | [], state => state
  | row :: rest, (template, labels) =>
      processRows logo largeFont smallFont rest
        (template, labels ++ [renderLabel template logo largeFont smallFont row])

/-- The call `fillna("")` applied to one cell: a missing value becomes the
empty string, a present string is kept. -/
def fillna (cell : Option String) : String := cell.getD ""

/-- Errors raised by the external conversion or transport routines
(Python exceptions), carried as messages. -/
abbrev Err : Type := String

/-- The device raster instructions produced by the external `convert`
routine, carried as an opaque byte sequence. -/
abbrev Instr : Type := List Nat

/-- The call `label_img.rotate(90, expand=True)` from `print_label`: a
quarter-turn with swapped dimensions. -/
def Img.rotate90 (img : Img) : Img :=
  ⟨img.height, img.width, fun x y => img.px (img.width - 1 - y) x⟩

/-- Source function `print_label` from `src/main.py`: rotate the label,
convert it to raster instructions, and send them to the printer.
Conversion and transport are external routines that may fail; any failure
propagates uncaught. -/
def print_label (convert : Img → Except Err Instr)
    (send : Instr → Except Err Unit) (img : Img) : Except Err Unit :=
  match convert img.rotate90 with
  | .error e => .error e
  | .ok instructions => send instructions

/-- Rendering then printing one participant row, as done by the print-mode
loop body of `main`. -/
def printRow (template : Img) (logo : ImgA) (largeFont smallFont : Font)
    (convert : Img → Except Err Instr) (send : Instr → Except Err Unit)
    (row : Row) : Except Err Unit :=
  print_label convert send (renderLabel template logo largeFont smallFont row)

/-- The print-mode loop of `main`: process rows in order, rendering and
printing each; an uncaught failure halts the batch.  The result records the
rows that were rendered, the rows whose print completed, and the first
error (`none` when the batch ran to completion). -/
def runBatch (printOne : Row → Except Err Unit) :
    List Row → List Row × List Row × Option Err
  | [] => ([], [], none)
  | row :: rest =>
      match printOne row with
      | .error e => ([row], [], some e)
      | .ok _ =>
          let result := runBatch printOne rest
          (row :: result.1, row :: result.2.1, result.2.2)

/-- Modelled from the spec: `round_aspect(number, key)` inside PIL
`Image.thumbnail` — `max(min(floor(number), ceil(number), key=key), 1)`:
of floor and ceiling, pick the one with the smaller key (the floor on a
tie, matching Python `min`), clamped below by 1. -/
def roundAspect (number : ℚ) (key : ℤ → ℚ) : ℤ :=
  max (if key ⌊number⌋ ≤ key ⌈number⌉ then ⌊number⌋ else ⌈number⌉) 1

/-- Modelled from the spec: the dimension computation of PIL
`Image.thumbnail((x, y))`, in exact rational arithmetic — return the
current size when the image already fits in the box, otherwise keep one box
side and round the other to the closest integer aspect match.  The source
calls this in `get_resized_logo` via
`logo_original.thumbnail(logo_print_size)`. -/
def thumbnailDims (w h x y : Nat) : Nat × Nat :=
  if w ≤ x ∧ h ≤ y then (w, h)
  else if (w : ℚ) / (h : ℚ) ≤ (x : ℚ) / (y : ℚ) then
    ((roundAspect ((y : ℚ) * ((w : ℚ) / (h : ℚ)))
        fun n => |(w : ℚ) / (h : ℚ) - (n : ℚ) / (y : ℚ)|).toNat, y)
  else
    (x, (roundAspect ((x : ℚ) / ((w : ℚ) / (h : ℚ)))
        fun n => |(w : ℚ) / (h : ℚ) - (x : ℚ) / (n : ℚ)|).toNat)

/-- Source value `logo_print_size = (LABEL_SIZE[0] - 2 * PADDING,
LABEL_SIZE[1] - 2 * PADDING)` from `get_resized_logo`. -/
def logo_print_size : Nat × Nat :=
  (LABEL_SIZE.1 - 2 * PADDING, LABEL_SIZE.2 - 2 * PADDING)

/-- Source function `get_resized_logo` from `src/main.py`: open the logo
file, convert it to RGBA, and `thumbnail` it to fit `logo_print_size`.
The resampled pixel content is modelled by nearest sampling; no verified
property depends on resampled pixel values, only on the dimensions. -/
def get_resized_logo (logo : ImgA) : ImgA :=
  let d := thumbnailDims logo.width logo.height logo_print_size.1 logo_print_size.2
  ⟨d.1, d.2,
    fun x y => logo.px (x * logo.width / d.1) (y * logo.height / d.2),
    fun x y => logo.alpha (x * logo.width / d.1) (y * logo.height / d.2)⟩

/-- Modelled from the spec: PIL RGB→L grayscale conversion,
`L = (19595 R + 38470 G + 7471 B + 32768) >> 16` (the fixed-point form of
`R*299/1000 + G*587/1000 + B*114/1000`). -/
def grayL (c : RGB) : Nat :=
  (19595 * c.r + 38470 * c.g + 7471 * c.b + 32768) / 65536

/-- The threshold lambda from `src/convert_logo.py`:
`0 if p < 255 else 255` (fixed luminance threshold, mode `'1'`). -/
def binarize (p : Nat) : Nat := if p < 255 then 0 else 255

/-- One pixel of the pipeline of `src/convert_logo.py` `main`: split off
the RGB channels, convert to grayscale, binarize at the fixed threshold,
then composite the black/white value over a white canvas using the source
alpha channel as the paste mask. -/
def convertLogoPixel (c : RGB) (a : Nat) : RGB :=
  let bw := binarize (grayL c)
  ⟨blendChan 255 bw a, blendChan 255 bw a, blendChan 255 bw a⟩

/-- Source function `main` of `src/convert_logo.py`, as an image-to-image
map: every output pixel is the converted source pixel. -/
def convert_logo (img : ImgA) : Img :=
  ⟨img.width, img.height, fun x y => convertLogoPixel (img.px x y) (img.alpha x y)⟩

/-- Modelled from the spec: the call
`participants.sort_values("T-shirt size")` — pandas sorts the rows in
ascending order of the raw size strings; Python compares strings
lexicographically by code points, which is the lexicographic order on the
character lists. -/
def sort_values (rows : List Row) : List Row :=
  List.insertionSort (fun a b => a.size.data ≤ b.size.data) rows

instance : IsTotal Row (fun a b => a.size.data ≤ b.size.data) :=
  ⟨fun a b => le_total a.size.data b.size.data⟩

instance : IsTrans Row (fun a b => a.size.data ≤ b.size.data) :=
  ⟨fun _ _ _ hab hbc => le_trans hab hbc⟩

/-- The preview images collected by `main`: the loop runs over the sorted
rows starting from the shared template and an empty collection. -/
def previewBatch (template : Img) (logo : ImgA) (largeFont smallFont : Font)
    (rows : List Row) : List Img :=
  (processRows logo largeFont smallFont (sort_values rows) (template, [])).2

/-- A sample font used to instantiate witnesses: every character advances
by 10 pixels and every glyph covers the whole plane. -/
def sampleFont : Font := ⟨fun _ => 10, fun _ _ _ => true, 55, 13⟩

/-- A zero-size sample logo used to instantiate witnesses. -/
def sampleLogo : ImgA := ⟨0, 0, fun _ _ => PRINT_COLOUR, fun _ _ => 0⟩

/-- A fully opaque 2000x1000 sample logo used to instantiate witnesses. -/
def sampleBigLogo : ImgA := ⟨2000, 1000, fun _ _ => PRINT_COLOUR, fun _ _ => 255⟩

/-- A fully opaque single-pixel magenta image used to instantiate
witnesses for the logo conversion. -/
def magentaLogo : ImgA := ⟨1, 1, fun _ _ => ⟨255, 0, 255⟩, fun _ _ => 255⟩

/-- Sample conversion oracle for witnesses: records whether one probed
pixel of the rotated label is black. -/
def sampleConvert : Img → Except Err Instr := fun img =>
  .ok [if img.px 300 300 = PRINT_COLOUR then 1 else 0]

/-- Sample transport oracle for witnesses: fails exactly on labels whose
probed pixel is black. -/
def sampleSend : Instr → Except Err Unit := fun instructions =>
  if instructions = ([1] : List Nat) then .error ("transport failure" : Err)
  else .ok ()

/-- Example participant rows whose sizes arrive out of lexicographic
order. -/
def exampleRows : List Row :=
  [⟨"Ann", "Crew", "XL"⟩, ⟨"Bob", "Crew", "M"⟩,
    ⟨"Cal", "Crew", "S"⟩, ⟨"Dee", "Crew", "L"⟩]

/-! ## Shared lemmas -/

/-- Unfolding the preview loop: the template component is threaded through
untouched and each row contributes exactly one label rendered from the
original template. -/
lemma processRows_eq (logo : ImgA) (largeFont smallFont : Font)
    (rows : List Row) (template : Img) (acc : List Img) :
    processRows logo largeFont smallFont rows (template, acc)
      = (template, acc ++ rows.map (renderLabel template logo largeFont smallFont)) := by
  induction rows generalizing acc with
  | nil => simp [processRows]
  | cons row rest ih =>
      rw [processRows, ih]
      simp

/-- If the first `i` rows print successfully and row `i` fails, the batch
halts there: rows `0..i` were rendered, rows `0..i-1` stay printed, and the
first error is reported. -/
lemma runBatch_halts (printOne : Row → Except Err Unit) (rows : List Row)
    (i : Nat) (e : Err) (hi : i < rows.length)
    (hok : ∀ j (hj : j < i), printOne (rows.get ⟨j, hj.trans hi⟩) = .ok ())
    (hfail : printOne (rows.get ⟨i, hi⟩) = .error e) :
    runBatch printOne rows = (rows.take (i + 1), rows.take i, some e) := by
  induction rows generalizing i with
  | nil => exact absurd hi (Nat.not_lt_zero i)
  | cons row rest ih =>
      cases i with
      | zero =>
          have hr : printOne row = .error e := hfail
          simp [runBatch, hr]
      | succ j =>
          have hr : printOne row = .ok () := hok 0 (Nat.succ_pos j)
          have hrec := ih j (Nat.lt_of_succ_lt_succ hi)
            (fun k hk => hok (k + 1) (Nat.succ_lt_succ hk)) hfail
          simp [runBatch, hr, hrec]

/-- `roundAspect` stays below any integer bound at least 1 that dominates
its argument, whatever the key. -/
lemma roundAspect_le (v : ℚ) (key : ℤ → ℚ) (c : ℤ) (h1 : 1 ≤ c)
    (hv : v ≤ (c : ℚ)) : roundAspect v key ≤ c := by
  have hceil : ⌈v⌉ ≤ c := Int.ceil_le.2 hv
  have hfloor : ⌊v⌋ ≤ c := le_trans (Int.floor_le_ceil v) hceil
  unfold roundAspect
  split
  · exact max_le hfloor h1
  · exact max_le hceil h1

/-- `roundAspect` is at least 1. -/
lemma roundAspect_ge_one (v : ℚ) (key : ℤ → ℚ) : 1 ≤ roundAspect v key :=
  le_max_right _ 1

/-- On a positive argument, `roundAspect` lands within one of it, whatever
the key: the result is the floor, the ceiling, or the clamp value 1. -/
lemma roundAspect_close (v : ℚ) (key : ℤ → ℚ) (hv : 0 < v) :
    |(roundAspect v key : ℚ) - v| ≤ 1 := by
  have hfl := Int.floor_le v
  have hfl1 := Int.lt_floor_add_one v
  have hcl := Int.le_ceil v
  have hcl1 := Int.ceil_lt_add_one v
  have main : ∀ c : ℤ, c = ⌊v⌋ ∨ c = ⌈v⌉ → |((max c 1 : ℤ) : ℚ) - v| ≤ 1 := by
    intro c hc
    rcases le_or_lt 1 c with h1 | h1
    · rw [max_eq_left h1, abs_le]
      rcases hc with h | h
      · rw [h]
        constructor <;> linarith
      · rw [h]
        constructor <;> linarith
    · rw [max_eq_right (le_of_lt h1), abs_le]
      have hfc : ⌊v⌋ ≤ 0 := by
        rcases hc with h | h
        · omega
        · have := Int.floor_le_ceil v
          omega
      have hfcQ : ((⌊v⌋ : ℤ) : ℚ) ≤ 0 := by exact_mod_cast hfc
      constructor <;> push_cast <;> linarith
  unfold roundAspect
  split
  · exact main ⌊v⌋ (Or.inl rfl)
  · exact main ⌈v⌉ (Or.inr rfl)

/-- The dimension bounds of `thumbnail` at the concrete padded box
`(981, 403)`: the result fits the box, never exceeds the original size, and
matches the original aspect ratio to within one pixel of the kept side. -/
lemma thumbnail_fits (w h : Nat) (hw : 0 < w) (hh : 0 < h) :
    (thumbnailDims w h 981 403).1 ≤ 981 ∧
      (thumbnailDims w h 981 403).2 ≤ 403 ∧
      (thumbnailDims w h 981 403).1 ≤ w ∧
      (thumbnailDims w h 981 403).2 ≤ h ∧
      |((thumbnailDims w h 981 403).1 : ℚ) * (h : ℚ)
          - ((thumbnailDims w h 981 403).2 : ℚ) * (w : ℚ)|
        ≤ (max w h : ℚ) := by
  have hwQ : (0 : ℚ) < (w : ℚ) := by exact_mod_cast hw
  have hhQ : (0 : ℚ) < (h : ℚ) := by exact_mod_cast hh
  have hmax : (0 : ℚ) ≤ (max w h : ℚ) := by positivity
  unfold thumbnailDims
  split
  case isTrue hfit =>
    refine ⟨hfit.1, hfit.2, le_refl _, le_refl _, ?_⟩
    have hzero : (w : ℚ) * (h : ℚ) - (h : ℚ) * (w : ℚ) = 0 := by ring
    rw [hzero, abs_zero]
    exact hmax
  case isFalse hnofit =>
    push_neg at hnofit
    split
    case isTrue hbr =>
      -- keep the box height 403, round the width
      set v : ℚ := ((403 : Nat) : ℚ) * ((w : ℚ) / (h : ℚ)) with hv
      set key : ℤ → ℚ :=
        fun n => |(w : ℚ) / (h : ℚ) - (n : ℚ) / ((403 : Nat) : ℚ)| with hkey
      have hvpos : 0 < v := by rw [hv]; positivity
      have hbrQ : (w : ℚ) / (h : ℚ) ≤ (981 : ℚ) / (403 : ℚ) := by
        have := hbr
        push_cast at this
        exact this
      have hv981 : v ≤ ((981 : ℤ) : ℚ) := by
        rw [hv]
        push_cast
        nlinarith [hbrQ]
      have h403 : 403 ≤ h := by
        by_contra hlt
        push_neg at hlt
        have hw981 : 981 < w := by
          rcases Nat.lt_or_ge 981 w with hgt | hle
          · exact hgt
          · exact absurd (hnofit hle) (by omega)
        have hhle : (h : ℚ) ≤ 402 := by exact_mod_cast Nat.lt_succ_iff.mp hlt
        have hwge : (982 : ℚ) ≤ (w : ℚ) := by exact_mod_cast hw981
        rw [div_le_div_iff hhQ (by norm_num)] at hbrQ
        nlinarith
      have h403Q : (403 : ℚ) ≤ (h : ℚ) := by exact_mod_cast h403
      have hvw : v ≤ ((w : ℤ) : ℚ) := by
        have hv2 : v = (403 * (w : ℚ)) / (h : ℚ) := by rw [hv]; push_cast; ring
        rw [hv2, div_le_iff hhQ]
        push_cast
        nlinarith [mul_le_mul_of_nonneg_left h403Q (le_of_lt hwQ)]
      have hr981 : roundAspect v key ≤ 981 :=
        roundAspect_le v key 981 (by norm_num) (by exact_mod_cast hv981)
      have hrw : roundAspect v key ≤ (w : ℤ) :=
        roundAspect_le v key w (by exact_mod_cast hw) hvw
      have hr1 : 1 ≤ roundAspect v key := roundAspect_ge_one v key
      have hclose : |(roundAspect v key : ℚ) - v| ≤ 1 := roundAspect_close v key hvpos
      have hcast : (((roundAspect v key).toNat : Nat) : ℚ) = ((roundAspect v key : ℤ) : ℚ) := by
        have := Int.toNat_of_nonneg (le_trans (by norm_num) hr1)
        exact_mod_cast this
      refine ⟨?_, by norm_num, ?_, by exact_mod_cast h403, ?_⟩
      · simp only
        omega
      · simp only
        omega
      · simp only
        have hvh : v * (h : ℚ) = ((403 : Nat) : ℚ) * (w : ℚ) := by
          rw [hv]
          field_simp
        have step : |(roundAspect v key : ℚ) * (h : ℚ) - ((403 : Nat) : ℚ) * (w : ℚ)|
            = |(roundAspect v key : ℚ) - v| * (h : ℚ) := by
          rw [← hvh, ← sub_mul, abs_mul, abs_of_pos hhQ]
        have hhle : (h : ℚ) ≤ (max w h : ℚ) := by
          have : h ≤ max w h := le_max_right w h
          exact_mod_cast this
        have hbound : |(roundAspect v key : ℚ) - v| * (h : ℚ) ≤ 1 * (h : ℚ) :=
          mul_le_mul_of_nonneg_right hclose (le_of_lt hhQ)
        rw [hcast, step]
        linarith
    case isFalse hbr =>
      -- keep the box width 981, round the height
      set v : ℚ := ((981 : Nat) : ℚ) / ((w : ℚ) / (h : ℚ)) with hv
      set key : ℤ → ℚ :=
        fun n => |(w : ℚ) / (h : ℚ) - ((981 : Nat) : ℚ) / (n : ℚ)| with hkey
      have haspect : (0 : ℚ) < (w : ℚ) / (h : ℚ) := by positivity
      have hvpos : 0 < v := by rw [hv]; positivity
      have hbrQ : (981 : ℚ) / (403 : ℚ) < (w : ℚ) / (h : ℚ) := by
        have := lt_of_not_le hbr
        push_cast at this
        exact this
      have hvalt : v = ((981 : Nat) : ℚ) * (h : ℚ) / (w : ℚ) := by
        rw [hv]
        field_simp
      have hw981 : 981 ≤ w := by
        by_contra hlt
        push_neg at hlt
        have hh403 : 403 < h := by
          have := hnofit (by omega)
          omega
        have hwle : (w : ℚ) ≤ 980 := by exact_mod_cast Nat.lt_succ_iff.mp hlt
        have hhge : (404 : ℚ) ≤ (h : ℚ) := by exact_mod_cast hh403
        rw [div_lt_div_iff (by norm_num) hhQ] at hbrQ
        nlinarith
      have hv403 : v ≤ ((403 : ℤ) : ℚ) := by
        rw [hvalt]
        rw [div_le_iff hwQ]
        push_cast
        rw [div_lt_div_iff (by norm_num) hhQ] at hbrQ
        nlinarith
      have hw981Q : (981 : ℚ) ≤ (w : ℚ) := by exact_mod_cast hw981
      have hvh : v ≤ ((h : ℤ) : ℚ) := by
        rw [hvalt, div_le_iff hwQ]
        push_cast
        nlinarith [mul_le_mul_of_nonneg_left hw981Q (le_of_lt hhQ)]
      have hr403 : roundAspect v key ≤ 403 :=
        roundAspect_le v key 403 (by norm_num) (by exact_mod_cast hv403)
      have hrh : roundAspect v key ≤ (h : ℤ) :=
        roundAspect_le v key h (by exact_mod_cast hh) hvh
      have hr1 : 1 ≤ roundAspect v key := roundAspect_ge_one v key
      have hclose : |(roundAspect v key : ℚ) - v| ≤ 1 := roundAspect_close v key hvpos
      have hcast : (((roundAspect v key).toNat : Nat) : ℚ) = ((roundAspect v key : ℤ) : ℚ) := by
        have := Int.toNat_of_nonneg (le_trans (by norm_num) hr1)
        exact_mod_cast this
      refine ⟨by norm_num, ?_, by exact_mod_cast hw981, ?_, ?_⟩
      · simp only
        omega
      · simp only
        omega
      · simp only
        have hvw : v * (w : ℚ) = ((981 : Nat) : ℚ) * (h : ℚ) := by
          rw [hvalt]
          field_simp
        have step : |((981 : Nat) : ℚ) * (h : ℚ) - (roundAspect v key : ℚ) * (w : ℚ)|
            = |v - (roundAspect v key : ℚ)| * (w : ℚ) := by
          rw [← hvw, ← sub_mul, abs_mul, abs_of_pos hwQ]
        have hwle : (w : ℚ) ≤ (max w h : ℚ) := by
          have : w ≤ max w h := le_max_left w h
          exact_mod_cast this
        calc |(((981 : Nat) : Nat) : ℚ) * (h : ℚ)
              - (((roundAspect v key).toNat : Nat) : ℚ) * (w : ℚ)|
            = |v - (roundAspect v key : ℚ)| * (w : ℚ) := by rw [hcast]; exact step
          _ = |(roundAspect v key : ℚ) - v| * (w : ℚ) := by rw [abs_sub_comm]
          _ ≤ 1 * (w : ℚ) := by
              exact mul_le_mul_of_nonneg_right hclose (le_of_lt hwQ)
          _ ≤ (max w h : ℚ) := by rw [one_mul]; exact hwle

/-! ## Claims -/

/-- C1: for a row with a non-empty name, `add_name` centres the name
horizontally — the drawn x position `nameX width` satisfies
`name_x + width/2 == canvas_width/2` to within one pixel (in fact to within
half a pixel), where `width` is the measured width of the name in the large
font and the canvas width is 991. -/
theorem add_name_centered (largeFont : Font) (name : String) (h : name ≠ "") :
    |(nameX (get_textsize largeFont name).1 : ℚ)
        + ((get_textsize largeFont name).1 : ℚ) / 2 - (LABEL_SIZE.1 : ℚ) / 2| ≤ 1 := by
  set w : Nat := (get_textsize largeFont name).1 with hw
  have key : (2 : ℤ) * nameX w + (w : ℤ) - 991 = -((991 - (w : ℤ)) % 2) := by
    simp only [nameX, LABEL_SIZE]
    omega
  have hr0 : (0 : ℤ) ≤ (991 - (w : ℤ)) % 2 := Int.emod_nonneg _ (by norm_num)
  have hr1 : (991 - (w : ℤ)) % 2 ≤ 1 := by omega
  have keyQ : 2 * ((nameX w : ℤ) : ℚ) + (w : ℚ) - 991
      = -((((991 - (w : ℤ)) % 2 : ℤ) : ℚ)) := by
    exact_mod_cast congrArg (fun z : ℤ => (z : ℚ)) key
  have hr0Q : (0 : ℚ) ≤ (((991 - (w : ℤ)) % 2 : ℤ) : ℚ) := by exact_mod_cast hr0
  have hr1Q : (((991 - (w : ℤ)) % 2 : ℤ) : ℚ) ≤ 1 := by exact_mod_cast hr1
  have hL : (LABEL_SIZE.1 : ℚ) = 991 := by norm_num [LABEL_SIZE]
  rw [hL, abs_le]
  constructor <;> nlinarith [keyQ, hr0Q, hr1Q]

/-- Witness for C1 at the concrete name "Alex" and the sample font. -/
theorem add_name_centered_witness :
    ("Alex" : String) ≠ "" ∧
      |(nameX (get_textsize sampleFont "Alex").1 : ℚ)
          + ((get_textsize sampleFont "Alex").1 : ℚ) / 2 - (LABEL_SIZE.1 : ℚ) / 2| ≤ 1 :=
  ⟨by decide, add_name_centered sampleFont "Alex" (by decide)⟩

/-- C2: for every row, the category text is drawn with its left edge at
exactly the padding constant (`x = 5`), and the size text is drawn
right-aligned: its drawn x plus its measured width equals
`canvas_width - padding = 991 - 5`. -/
theorem category_left_size_right (smallFont : Font) (catText sizeText : String) :
    (categoryPos smallFont catText).1 = (PADDING : Int) ∧
      (sizePos smallFont sizeText).1 + ((get_textsize smallFont sizeText).1 : Int)
        = (LABEL_SIZE.1 : Int) - (PADDING : Int) := by
  refine ⟨rfl, ?_⟩
  simp only [sizePos]
  ring

/-- C3: `get_resized_logo` never exceeds the padded box — the resized
width is at most `991 - 2*5 = 981` and the resized height at most
`413 - 2*5 = 403`; the resize only shrinks, it preserves the aspect ratio
to within the one-pixel rounding of integer dimensions, and the logo pasted
at offset `(PADDING, PADDING)` stays inside the 991x413 canvas. -/
theorem resized_logo_fits (logo : ImgA) (hw : 0 < logo.width)
    (hh : 0 < logo.height) :
    (get_resized_logo logo).width ≤ LABEL_SIZE.1 - 2 * PADDING ∧
      (get_resized_logo logo).height ≤ LABEL_SIZE.2 - 2 * PADDING ∧
      (get_resized_logo logo).width ≤ logo.width ∧
      (get_resized_logo logo).height ≤ logo.height ∧
      |((get_resized_logo logo).width : ℚ) * (logo.height : ℚ)
          - ((get_resized_logo logo).height : ℚ) * (logo.width : ℚ)|
        ≤ (max logo.width logo.height : ℚ) ∧
      PADDING + (get_resized_logo logo).width ≤ LABEL_SIZE.1 ∧
      PADDING + (get_resized_logo logo).height ≤ LABEL_SIZE.2 := by
  have hbox1 : logo_print_size.1 = 981 := by norm_num [logo_print_size, LABEL_SIZE, PADDING]
  have hbox2 : logo_print_size.2 = 403 := by norm_num [logo_print_size, LABEL_SIZE, PADDING]
  have hdim1 : (get_resized_logo logo).width
      = (thumbnailDims logo.width logo.height 981 403).1 := by
    simp [get_resized_logo, hbox1, hbox2]
  have hdim2 : (get_resized_logo logo).height
      = (thumbnailDims logo.width logo.height 981 403).2 := by
    simp [get_resized_logo, hbox1, hbox2]
  have main := thumbnail_fits logo.width logo.height hw hh
  rw [hdim1, hdim2]
  refine ⟨?_, ?_, main.2.2.1, main.2.2.2.1, main.2.2.2.2, ?_, ?_⟩
  · simpa [LABEL_SIZE, PADDING] using main.1
  · simpa [LABEL_SIZE, PADDING] using main.2.1
  · have := main.1
    simp only [LABEL_SIZE, PADDING]
    omega
  · have := main.2.1
    simp only [LABEL_SIZE, PADDING]
    omega

/-- Witness for C3 at a concrete 2000x1000 fully opaque logo. -/
theorem resized_logo_fits_witness :
    0 < sampleBigLogo.width ∧ 0 < sampleBigLogo.height ∧
      ((get_resized_logo sampleBigLogo).width ≤ LABEL_SIZE.1 - 2 * PADDING ∧
        (get_resized_logo sampleBigLogo).height ≤ LABEL_SIZE.2 - 2 * PADDING ∧
        (get_resized_logo sampleBigLogo).width ≤ sampleBigLogo.width ∧
        (get_resized_logo sampleBigLogo).height ≤ sampleBigLogo.height ∧
        |((get_resized_logo sampleBigLogo).width : ℚ) * (sampleBigLogo.height : ℚ)
            - ((get_resized_logo sampleBigLogo).height : ℚ) * (sampleBigLogo.width : ℚ)|
          ≤ (max sampleBigLogo.width sampleBigLogo.height : ℚ) ∧
        PADDING + (get_resized_logo sampleBigLogo).width ≤ LABEL_SIZE.1 ∧
        PADDING + (get_resized_logo sampleBigLogo).height ≤ LABEL_SIZE.2) :=
  ⟨by decide, by decide,
    resized_logo_fits sampleBigLogo (by decide) (by decide)⟩

/-- C4: the shared background template is never mutated by rendering.
`make_label_with_logo` pastes onto a fresh copy of the template (and the
copy equals the pristine template), the template threaded through the loop
over any sequence of rows comes out equal to its initial state, and every
row's label is rendered from the original template — no per-row canvas
state is carried from one row to the next. -/
theorem template_never_mutated (template : Img) (logo : ImgA)
    (largeFont smallFont : Font) (rows : List Row) :
    (processRows logo largeFont smallFont rows (template, [])).1 = template ∧
      (processRows logo largeFont smallFont rows (template, [])).2
        = rows.map (renderLabel template logo largeFont smallFont) ∧
      Img.copy template = template ∧
      make_label_with_logo template logo = paste template.copy logo PADDING PADDING := by
  refine ⟨?_, ?_, rfl, rfl⟩
  · rw [processRows_eq]
  · rw [processRows_eq]
    simp

/-- C5: label rendering is deterministic — processing the same row twice
with the same template, logo and fonts produces two pixel-identical label
images (the collected previews are two equal copies of one image). -/
theorem render_deterministic (template : Img) (logo : ImgA)
    (largeFont smallFont : Font) (row : Row) :
    ∃ label : Img,
      (processRows logo largeFont smallFont [row, row] (template, [])).2
        = [label, label] :=
  ⟨renderLabel template logo largeFont smallFont row, by rw [processRows_eq]; simp⟩

/-- C6: for every non-empty image list, `preview_grid`'s row count
`(n + min(10, n) - 1) // min(10, n)` equals the ceiling of `n / 10`: it
equals `(n + 10 - 1) // 10`, and it is the least number of rows of 10
columns holding `n` images. -/
theorem preview_grid_rows (n : Nat) (h : 1 ≤ n) :
    previewRows n = (n + PREVIEW_COLUMNS - 1) / PREVIEW_COLUMNS ∧
      n ≤ previewRows n * PREVIEW_COLUMNS ∧
      (previewRows n - 1) * PREVIEW_COLUMNS < n := by
  simp only [previewRows, previewCols, PREVIEW_COLUMNS]
  rcases le_or_lt 10 n with h10 | h10
  · rw [min_eq_left h10]
    omega
  · interval_cases n <;> decide

/-- Witness for C6 at `n = 23` images (3 rows of 10 columns). -/
theorem preview_grid_rows_witness :
    1 ≤ 23 ∧
      (previewRows 23 = (23 + PREVIEW_COLUMNS - 1) / PREVIEW_COLUMNS ∧
        23 ≤ previewRows 23 * PREVIEW_COLUMNS ∧
        (previewRows 23 - 1) * PREVIEW_COLUMNS < 23) :=
  ⟨by decide, preview_grid_rows 23 (by decide)⟩

/-- C7: in print mode, a conversion or transport failure at row `i`
propagates uncaught and halts the batch: rows `0..i` were the only rows
rendered, the rows printed are exactly those before `i` (they stay printed,
with no rollback), no later row is touched, and the loop's outcome is just
the first error — no record of the succeeded rows. -/
theorem print_failure_halts_batch (template : Img) (logo : ImgA)
    (largeFont smallFont : Font) (convert : Img → Except Err Instr)
    (send : Instr → Except Err Unit) (rows : List Row) (i : Nat) (e : Err)
    (hi : i < rows.length)
    (hok : ∀ j (hj : j < i),
      printRow template logo largeFont smallFont convert send
        (rows.get ⟨j, hj.trans hi⟩) = .ok ())
    (hfail : printRow template logo largeFont smallFont convert send
      (rows.get ⟨i, hi⟩) = .error e) :
    runBatch (printRow template logo largeFont smallFont convert send) rows
      = (rows.take (i + 1), rows.take i, some e) :=
  runBatch_halts (printRow template logo largeFont smallFont convert send)
    rows i e hi hok hfail

set_option maxRecDepth 4000 in
/-- Witness for C7: two rows, the first blank (prints fine), the second
with a name whose glyphs blacken the probed pixel (its transport fails);
the batch renders both, prints only the first, and stops with the error. -/
theorem print_failure_halts_batch_witness :
    runBatch
        (printRow blank_label_template sampleLogo sampleFont sampleFont
          sampleConvert sampleSend)
        [⟨"", "", ""⟩, ⟨"A", "", ""⟩]
      = ([⟨"", "", ""⟩, ⟨"A", "", ""⟩], [⟨"", "", ""⟩],
          some ("transport failure" : Err)) :=
  print_failure_halts_batch blank_label_template sampleLogo sampleFont
    sampleFont sampleConvert sampleSend [⟨"", "", ""⟩, ⟨"A", "", ""⟩] 1
    ("transport failure" : Err) (by decide)
    (fun j hj => by
      have hj0 : j = 0 := by omega
      subst hj0
      rfl)
    (by rfl)

/-- C8: missing cells are normalized to empty strings (`fillna`), the empty
string measures to width 0 and height 0, and drawing an empty name,
category or size string is a no-op on the image — no visible glyph and no
error. -/
theorem empty_cells_render_blank :
    fillna none = "" ∧
      (∀ cell : String, fillna (some cell) = cell) ∧
      (∀ font : Font, get_textsize font "" = (0, 0)) ∧
      (∀ (img : Img) (pos : Int × Int) (fill : RGB) (font : Font),
        drawText img pos "" fill font = img) ∧
      (∀ (largeFont : Font) (img : Img), add_name largeFont img "" = img) ∧
      (∀ (smallFont : Font) (img : Img),
        add_participant_category smallFont img "" = img ∧
          add_t_shirt_size smallFont img "" = img) :=
  ⟨rfl, fun _ => rfl, fun _ => rfl, fun _ _ _ _ => rfl, fun _ _ => rfl,
    fun _ _ => ⟨rfl, rfl⟩⟩

/-- C9: on a fully opaque source, the logo conversion utility yields only
pure black and pure white pixels (no intermediate grays); in particular a
fully opaque magenta pixel maps to black and a white pixel stays white. -/
theorem convert_logo_black_white (img : ImgA)
    (hAlpha : ∀ x y, img.alpha x y = 255) :
    (∀ x y, (convert_logo img).px x y = PRINT_COLOUR
        ∨ (convert_logo img).px x y = BACKGROUND_COLOUR) ∧
      convertLogoPixel ⟨255, 0, 255⟩ 255 = PRINT_COLOUR ∧
      convertLogoPixel ⟨255, 255, 255⟩ 255 = BACKGROUND_COLOUR := by
  have hblend0 : blendChan 255 0 255 = 0 := by decide
  have hblend255 : blendChan 255 255 255 = 255 := by decide
  refine ⟨?_, by decide, by decide⟩
  intro x y
  simp only [convert_logo, convertLogoPixel]
  rw [hAlpha x y]
  by_cases hth : grayL (img.px x y) < 255
  · left
    simp [binarize, hth, hblend0, PRINT_COLOUR]
  · right
    simp [binarize, hth, hblend255, BACKGROUND_COLOUR]

/-- Witness for C9 at the fully opaque single-pixel magenta image. -/
theorem convert_logo_black_white_witness :
    (∀ x y, magentaLogo.alpha x y = 255) ∧
      ((∀ x y, (convert_logo magentaLogo).px x y = PRINT_COLOUR
          ∨ (convert_logo magentaLogo).px x y = BACKGROUND_COLOUR) ∧
        convertLogoPixel ⟨255, 0, 255⟩ 255 = PRINT_COLOUR ∧
        convertLogoPixel ⟨255, 255, 255⟩ 255 = BACKGROUND_COLOUR) :=
  ⟨fun _ _ => rfl, convert_logo_black_white magentaLogo (fun _ _ => rfl)⟩

/-- C10: rows are processed in ascending lexicographic order of the raw
size strings — the sort yields a permutation of the input sorted by
`size`, the preview batch renders exactly that sorted sequence in order,
and on the example sizes the order is "L", "M", "S", "XL" (garment order
would put "S" before "XL" only by accident of the alphabet). -/
theorem rows_sorted_by_raw_size :
    (∀ rows : List Row,
        List.Sorted (fun a b : Row => a.size.data ≤ b.size.data) (sort_values rows)
          ∧ (sort_values rows).Perm rows) ∧
      (∀ (template : Img) (logo : ImgA) (largeFont smallFont : Font)
          (rows : List Row),
        previewBatch template logo largeFont smallFont rows
          = (sort_values rows).map (renderLabel template logo largeFont smallFont)) ∧
      (sort_values exampleRows).map Row.size = ["L", "M", "S", "XL"] := by
  refine ⟨fun rows => ⟨?_, ?_⟩, fun template logo largeFont smallFont rows => ?_, ?_⟩
  · exact List.sorted_insertionSort _ rows
  · exact List.perm_insertionSort _ rows
  · rw [previewBatch, processRows_eq]
    simp
  · decide

end DasLabels
